import Mathlib

/-!
Shallow embedding of the beets-frontend-v2 sources:

* `src/composables/useAlerts.ts`
* `src/composables/queries/useUserPoolsQuery.ts`
* `src/beethovenx/services/beethovenx/beethovenx.service.ts`

JavaScript plain objects used as keyed maps are modelled as insertion-ordered
association lists (`JsMap`): assigning an existing key replaces its value in
place, assigning a fresh key appends, and collection iteration
(`Object.values`, lodash iteration) follows that order.  Decimal arithmetic
performed with BigNumber / JS numbers is modelled as exact rationals, and a
thrown runtime error is modelled by an `Option` result being `none`.
External library helpers that live outside the three files above
(`addressFor`, ethers' `getAddress` / `isAddress`, `lpTokensFor`) are taken
as explicit function parameters.
-/

/-- Insertion-ordered association list standing for a JavaScript object. -/
abbrev JsMap (κ α : Type) : Type := List (κ × α)

/-- Property read `obj[k]`: the value stored at `k`, if any. -/
def jsGet [DecidableEq κ] : JsMap κ α → κ → Option α
  | [], _ => none
  | (k', v) :: rest, k => if k' = k then some v else jsGet rest k

/-- Property write `obj[k] = v`: replace in place, or append a fresh key. -/
def jsSet [DecidableEq κ] : JsMap κ α → κ → α → JsMap κ α
  | [], k, v => [(k, v)]
  | (k', v') :: rest, k, v =>
      if k' = k then (k, v) :: rest else (k', v') :: jsSet rest k v

/-- `Object.keys`. -/
def jsKeys (m : JsMap κ α) : List κ := m.map Prod.fst

/-- `Object.values`. -/
def jsValues (m : JsMap κ α) : List α := m.map Prod.snd

/-- lodash `keyBy`: index a collection by a key function, last write wins. -/
def keyBy [DecidableEq κ] (f : α → κ) (l : List α) : JsMap κ α :=
  l.foldl (fun m x => jsSet m (f x) x) []

/-- JS `String.prototype.toLowerCase`, evaluated characterwise. -/
def jsToLower (s : String) : String := ⟨s.data.map Char.toLower⟩

/-! ### `src/composables/useAlerts.ts` -/

/-- `AlertType` enum of `useAlerts.ts`. -/
inductive AlertType : Type where
  | error
  | info
  | feature
  deriving DecidableEq, Repr

/-- `AlertPriority` enum of `useAlerts.ts` (numeric TS enum: LOW 0, MEDIUM 1,
HIGH 2). -/
inductive AlertPriority : Type where
  | LOW
  | MEDIUM
  | HIGH
  deriving DecidableEq, Repr

/-- The numeric value of a TS `AlertPriority` member. -/
def prioNum : AlertPriority → Nat
  | .LOW => 0
  | .MEDIUM => 1
  | .HIGH => 2

/-- The `Alert` record handed to `addAlert`; `priority` is optional.  The
source field `type` is spelled `alertType` (Lean keyword), and the `action`
callback is modelled by an opaque numeric tag so that records stay
comparable. -/
structure Alert where
  id : String
  priority : Option AlertPriority
  label : String
  alertType : AlertType
  actionLabel : Option String
  action : Option Nat
  actionOnClick : Option Bool
  persistent : Option Bool
  deriving DecidableEq, Repr

/-- An alert as it sits in the registry: `addAlert` always stores a definite
priority (`alert.priority ?? AlertPriority.LOW`). -/
structure StoredAlert where
  id : String
  priority : AlertPriority
  label : String
  alertType : AlertType
  actionLabel : Option String
  action : Option Nat
  actionOnClick : Option Bool
  persistent : Option Bool
  deriving DecidableEq, Repr

/-- The record stored by `addAlert`: `{ ...alert, priority: alert.priority ??
AlertPriority.LOW }`. -/
def storeAlert (a : Alert) : StoredAlert :=
  { id := a.id
    priority := a.priority.getD .LOW
    label := a.label
    alertType := a.alertType
    actionLabel := a.actionLabel
    action := a.action
    actionOnClick := a.actionOnClick
    persistent := a.persistent }

/-- `alertsState`: a `Record<string, Alert>` ref. -/
abbrev AlertsState : Type := JsMap String StoredAlert

/-- The seeded initial registry value of `alertsState`. -/
def alertsStateInit : AlertsState :=
  [("v2-beta",
    { id := "v2-beta"
      priority := .LOW
      label := "Explore our new UI at https://beta.beets.fi/. Beta now live."
      alertType := .feature
      actionLabel := some "Check it out"
      action := some 0
      actionOnClick := some false
      persistent := some false })]

/-- `addAlert`: upsert by id, defaulting priority to LOW. -/
def addAlert (st : AlertsState) (a : Alert) : AlertsState :=
  jsSet st a.id (storeAlert a)

/-- `removeAlert`: `delete alertsState.value[alertId]`. -/
def removeAlert (st : AlertsState) (alertId : String) : AlertsState :=
  st.filter fun kv => kv.1 ≠ alertId

/-- `removeAllAlerts`: reset the registry to `{}`. -/
def removeAllAlerts : AlertsState := []

/-- Stable descending insertion by priority; an element is placed in front of
the first element whose priority does not exceed it, so earlier elements keep
their relative order among equal priorities — the behaviour of lodash's
stable `orderBy(.., 'priority', 'desc')`. -/
def insertDesc (a : StoredAlert) : List StoredAlert → List StoredAlert
  | [] => [a]
  | b :: bs =>
      if prioNum b.priority ≤ prioNum a.priority then a :: b :: bs
      else b :: insertDesc a bs

/-- lodash `orderBy(collection, 'priority', 'desc')` as a stable sort. -/
def orderByPriorityDesc (l : List StoredAlert) : List StoredAlert :=
  l.foldr insertDesc []

/-- `alerts` computed view: `Object.values(orderBy(alertsState.value,
'priority', 'desc'))`. -/
def alerts (st : AlertsState) : List StoredAlert :=
  orderByPriorityDesc (jsValues st)

/-- `currentAlert` computed view: first alert when the list is non-empty. -/
def currentAlert (st : AlertsState) : Option StoredAlert :=
  match alerts st with
  | [] => none
  | a :: _ => some a

/-- Descending-priority ordering of an alert list. -/
abbrev SortedDesc (l : List StoredAlert) : Prop :=
  l.Pairwise fun x y => prioNum y.priority ≤ prioNum x.priority

/-! #### Registry lemmas -/

theorem jsGet_jsSet_self [DecidableEq κ] (m : JsMap κ α) (k : κ) (v : α) :
    jsGet (jsSet m k v) k = some v := by
  induction m with
  | nil => simp [jsSet, jsGet]
  | cons kv rest ih =>
      by_cases h : kv.1 = k
      · simp [jsSet, jsGet, h]
      · simpa [jsSet, jsGet, h] using ih

theorem jsKeys_jsSet_of_mem [DecidableEq κ] (m : JsMap κ α) (k : κ) (v : α)
    (h : k ∈ jsKeys m) : jsKeys (jsSet m k v) = jsKeys m := by
  induction m with
  | nil => simp [jsKeys] at h
  | cons kv rest ih =>
      by_cases hk : kv.1 = k
      · simp [jsSet, jsKeys, hk]
      · have hmem : k ∈ jsKeys rest := by
          simp [jsKeys] at h
          rcases h with h | h
          · exact absurd h.symm hk
          · simpa [jsKeys] using h
        simpa [jsSet, jsKeys, hk] using ih hmem

theorem length_jsSet_of_mem [DecidableEq κ] (m : JsMap κ α) (k : κ) (v : α)
    (h : k ∈ jsKeys m) : (jsSet m k v).length = m.length := by
  induction m with
  | nil => simp [jsKeys] at h
  | cons kv rest ih =>
      by_cases hk : kv.1 = k
      · simp [jsSet, hk]
      · have hmem : k ∈ jsKeys rest := by
          simp [jsKeys] at h
          rcases h with h | h
          · exact absurd h.symm hk
          · simpa [jsKeys] using h
        simp [jsSet, hk, ih hmem]

theorem insertDesc_perm (a : StoredAlert) (l : List StoredAlert) :
    (insertDesc a l).Perm (a :: l) := by
  induction l with
  | nil => simp [insertDesc]
  | cons b bs ih =>
      by_cases h : prioNum b.priority ≤ prioNum a.priority
      · simp [insertDesc, h]
      · have h1 : insertDesc a (b :: bs) = b :: insertDesc a bs := by
          simp [insertDesc, h]
        rw [h1]
        exact (List.Perm.cons b ih).trans (List.Perm.swap a b bs)

theorem orderByPriorityDesc_perm (l : List StoredAlert) :
    (orderByPriorityDesc l).Perm l := by
  induction l with
  | nil => simp [orderByPriorityDesc]
  | cons x xs ih =>
      have h1 : orderByPriorityDesc (x :: xs) = insertDesc x (orderByPriorityDesc xs) := rfl
      rw [h1]
      exact (insertDesc_perm x (orderByPriorityDesc xs)).trans (List.Perm.cons x ih)

theorem insertDesc_sorted (a : StoredAlert) (l : List StoredAlert)
    (h : SortedDesc l) : SortedDesc (insertDesc a l) := by
  induction l with
  | nil => simp [insertDesc, SortedDesc]
  | cons b bs ih =>
      rcases List.pairwise_cons.mp h with ⟨hb, hbs⟩
      by_cases hle : prioNum b.priority ≤ prioNum a.priority
      · have h1 : insertDesc a (b :: bs) = a :: b :: bs := by
          simp [insertDesc, hle]
        rw [h1]
        refine List.pairwise_cons.mpr ⟨?_, h⟩
        intro y hy
        rcases List.mem_cons.mp hy with rfl | hy
        · exact hle
        · exact le_trans (hb y hy) hle
      · have hmem : ∀ y ∈ insertDesc a bs, prioNum y.priority ≤ prioNum b.priority := by
          intro y hy
          have := (insertDesc_perm a bs).mem_iff.mp hy
          rcases List.mem_cons.mp this with rfl | hy'
          · exact le_of_lt (lt_of_not_le hle)
          · exact hb y hy'
        have h2 : SortedDesc (insertDesc a bs) := ih hbs
        have h1 : insertDesc a (b :: bs) = b :: insertDesc a bs := by
          simp [insertDesc, hle]
        rw [h1]
        exact List.pairwise_cons.mpr ⟨hmem, h2⟩

theorem orderByPriorityDesc_sorted (l : List StoredAlert) :
    SortedDesc (orderByPriorityDesc l) := by
  induction l with
  | nil => simp [orderByPriorityDesc, SortedDesc]
  | cons x xs ih => exact insertDesc_sorted x (orderByPriorityDesc xs) ih

/-! #### Claims C5 and C6 -/

/-- A LOW-priority alert used in the ordering example. -/
def exAlertLow : Alert :=
  { id := "ex-low", priority := some .LOW, label := "low", alertType := .info
    actionLabel := none, action := none, actionOnClick := none, persistent := none }

/-- A HIGH-priority alert used in the ordering example. -/
def exAlertHigh : Alert :=
  { id := "ex-high", priority := some .HIGH, label := "high", alertType := .error
    actionLabel := none, action := none, actionOnClick := none, persistent := none }

/-- A MEDIUM-priority alert used in the ordering example. -/
def exAlertMed : Alert :=
  { id := "ex-med", priority := some .MEDIUM, label := "med", alertType := .feature
    actionLabel := none, action := none, actionOnClick := none, persistent := none }

/-- Registry obtained by clearing all alerts and inserting the LOW, HIGH and
MEDIUM example alerts in that order. -/
def exAlertsState : AlertsState :=
  addAlert (addAlert (addAlert removeAllAlerts exAlertLow) exAlertHigh) exAlertMed

/-- C5: for every registry state the `alerts` view lists the registered
alerts in descending priority order (it is a permutation of the stored
values) and `currentAlert` is its first element; in particular, inserting
alerts with priorities LOW, HIGH, MEDIUM in that order into a cleared
registry yields the priority sequence HIGH, MEDIUM, LOW, with `currentAlert`
the HIGH one. -/
theorem C5_alerts_descending_current :
    (∀ st : AlertsState,
        SortedDesc (alerts st) ∧
        (alerts st).Perm (jsValues st) ∧
        currentAlert st = (alerts st).head?) ∧
    (alerts exAlertsState).map (fun a => a.priority) =
      [AlertPriority.HIGH, AlertPriority.MEDIUM, AlertPriority.LOW] ∧
    currentAlert exAlertsState = some (storeAlert exAlertHigh) := by
  refine ⟨fun st => ⟨orderByPriorityDesc_sorted _, orderByPriorityDesc_perm _, ?_⟩,
      by decide, by decide⟩
  cases h : alerts st <;> simp [currentAlert, h]

/-- C6: upserting an alert whose id is already registered replaces the
stored record entirely with the freshly-built record (no field-wise merge),
keeps the number of registry entries and the key list unchanged, stores
priority LOW when the incoming alert has no priority, and preserves key
uniqueness. -/
theorem C6_addAlert_upsert_replaces (st : AlertsState) (a : Alert)
    (hmem : a.id ∈ jsKeys st) :
    jsGet (addAlert st a) a.id = some (storeAlert a) ∧
    (addAlert st a).length = st.length ∧
    jsKeys (addAlert st a) = jsKeys st ∧
    (a.priority = none → (storeAlert a).priority = AlertPriority.LOW) ∧
    ((jsKeys st).Nodup → (jsKeys (addAlert st a)).Nodup) := by
  refine ⟨jsGet_jsSet_self st a.id (storeAlert a),
      length_jsSet_of_mem st a.id (storeAlert a) hmem,
      jsKeys_jsSet_of_mem st a.id (storeAlert a) hmem, ?_, ?_⟩
  · intro h
    simp [storeAlert, h]
  · intro h
    have h3 : jsKeys (addAlert st a) = jsKeys st :=
      jsKeys_jsSet_of_mem st a.id (storeAlert a) hmem
    rw [h3]
    exact h

/-- A registry with two entries used to witness the upsert claim. -/
def wAlertsState : AlertsState :=
  [("w1",
    { id := "w1", priority := .HIGH, label := "old", alertType := .error
      actionLabel := none, action := none, actionOnClick := none, persistent := none }),
   ("w2",
    { id := "w2", priority := .MEDIUM, label := "other", alertType := .info
      actionLabel := none, action := none, actionOnClick := none, persistent := none })]

/-- A replacement alert, with no priority, whose id collides with `w1`. -/
def wAlertNew : Alert :=
  { id := "w1", priority := none, label := "new", alertType := .info
    actionLabel := some "go", action := some 1, actionOnClick := some true
    persistent := some true }

theorem C6_addAlert_upsert_replaces_witness :
    jsGet (addAlert wAlertsState wAlertNew) wAlertNew.id = some (storeAlert wAlertNew) ∧
    (addAlert wAlertsState wAlertNew).length = wAlertsState.length ∧
    jsKeys (addAlert wAlertsState wAlertNew) = jsKeys wAlertsState ∧
    (wAlertNew.priority = none → (storeAlert wAlertNew).priority = AlertPriority.LOW) ∧
    ((jsKeys wAlertsState).Nodup → (jsKeys (addAlert wAlertsState wAlertNew)).Nodup) :=
  C6_addAlert_upsert_replaces wAlertsState wAlertNew (by decide)

/-! ### `src/beethovenx/services/beethovenx/beethovenx.service.ts` -/

theorem jsKeys_nil : jsKeys ([] : JsMap κ α) = [] := rfl

theorem jsKeys_cons (kv : κ × α) (rest : JsMap κ α) :
    jsKeys (kv :: rest) = kv.1 :: jsKeys rest := rfl

theorem jsGet_jsSet_ne [DecidableEq κ] (m : JsMap κ α) (k k' : κ) (v : α)
    (h : k' ≠ k) : jsGet (jsSet m k v) k' = jsGet m k' := by
  induction m with
  | nil => simp [jsSet, jsGet, Ne.symm h]
  | cons kv rest ih =>
      rcases kv with ⟨k₀, v₀⟩
      by_cases hk : k₀ = k
      · subst hk
        simp [jsSet, jsGet, Ne.symm h]
      · simp [jsSet, jsGet, hk, ih]

theorem mem_jsKeys_jsSet_iff [DecidableEq κ] (m : JsMap κ α) (k x : κ) (v : α) :
    x ∈ jsKeys (jsSet m k v) ↔ x = k ∨ x ∈ jsKeys m := by
  induction m with
  | nil => simp [jsSet, jsKeys_cons, jsKeys_nil]
  | cons kv rest ih =>
      rcases kv with ⟨k₀, v₀⟩
      by_cases hk : k₀ = k
      · subst hk
        have h1 : jsSet ((k₀, v₀) :: rest) k₀ v = (k₀, v) :: rest := by
          simp [jsSet]
        simp only [h1, jsKeys_cons, List.mem_cons]
        tauto
      · have h1 : jsSet ((k₀, v₀) :: rest) k v = (k₀, v₀) :: jsSet rest k v := by
          simp [jsSet, hk]
        simp only [h1, jsKeys_cons, List.mem_cons, ih]
        tauto

theorem mem_jsKeys_iff_jsGet_isSome [DecidableEq κ] (m : JsMap κ α) (k : κ) :
    k ∈ jsKeys m ↔ (jsGet m k).isSome := by
  induction m with
  | nil => simp [jsKeys_nil, jsGet]
  | cons kv rest ih =>
      rcases kv with ⟨k₀, v₀⟩
      by_cases hk : k₀ = k
      · subst hk
        simp [jsKeys_cons, jsGet]
      · simp [jsKeys_cons, jsGet, hk, ih, Ne.symm hk]

/-- One entry of the `tokenPriceGetCurrentPrices` response. -/
structure GqlTokenPrice where
  price : ℚ
  address : String
  deriving DecidableEq, Repr

/-- A price record `{ usd: number }`. -/
structure Price where
  usd : ℚ
  deriving DecidableEq, Repr

/-- `getTokenPrices`, as a function of the backend response; `none` models an
absent response.  `isAddr` and `getAddr` stand for ethers' `isAddress` and
checksum-formatting `getAddress`, which live outside this repository. -/
def getTokenPrices (isAddr : String → Bool) (getAddr : String → String)
    (response : Option (List GqlTokenPrice)) : JsMap String Price :=
  match response with
  | none => []
  | some tokenPrices =>
      tokenPrices.foldl
        (fun result tokenPrice =>
          if isAddr tokenPrice.address then
            jsSet result (getAddr tokenPrice.address) { usd := tokenPrice.price }
          else result) []

theorem getTokenPrices_foldl_keys (isAddr : String → Bool)
    (getAddr : String → String) (l : List GqlTokenPrice) :
    ∀ (acc : JsMap String Price) (k : String),
      k ∈ jsKeys (l.foldl
        (fun result tokenPrice =>
          if isAddr tokenPrice.address then
            jsSet result (getAddr tokenPrice.address) { usd := tokenPrice.price }
          else result) acc) →
      k ∈ jsKeys acc ∨
        ∃ tp, tp ∈ l ∧ isAddr tp.address = true ∧ k = getAddr tp.address := by
  induction l with
  | nil =>
      intro acc k h
      exact Or.inl h
  | cons tp rest ih =>
      intro acc k h
      by_cases ha : isAddr tp.address
      · have h' := ih (jsSet acc (getAddr tp.address) { usd := tp.price }) k
          (by simpa [List.foldl, ha] using h)
        rcases h' with h' | ⟨tp', htp', hA, hk⟩
        · rcases (mem_jsKeys_jsSet_iff acc (getAddr tp.address) k _).mp h' with hk | hk
          · exact Or.inr ⟨tp, List.mem_cons_self tp rest, ha, hk⟩
          · exact Or.inl hk
        · exact Or.inr ⟨tp', List.mem_cons_of_mem tp htp', hA, hk⟩
      · have h' := ih acc k (by simpa [List.foldl, ha] using h)
        rcases h' with h' | ⟨tp', htp', hA, hk⟩
        · exact Or.inl h'
        · exact Or.inr ⟨tp', List.mem_cons_of_mem tp htp', hA, hk⟩

/-- C10: `getTokenPrices` returns the empty map for an absent response, and
every key of the returned map is the checksum-formatted form of an address
that passed validation — response entries failing `isAddress` contribute no
key. -/
theorem C10_getTokenPrices_keys (isAddr : String → Bool)
    (getAddr : String → String) (response : List GqlTokenPrice) (k : String)
    (hk : k ∈ jsKeys (getTokenPrices isAddr getAddr (some response))) :
    getTokenPrices isAddr getAddr none = [] ∧
    ∃ tp, tp ∈ response ∧ isAddr tp.address = true ∧ k = getAddr tp.address := by
  refine ⟨rfl, ?_⟩
  have h := getTokenPrices_foldl_keys isAddr getAddr response [] k hk
  rcases h with h | h
  · simp [jsKeys] at h
  · exact h

/-- Concrete response used to witness C10. -/
def wTokenPricesResponse : List GqlTokenPrice :=
  [{ price := 5, address := "0xgood" }, { price := 7, address := "bad" }]

theorem C10_getTokenPrices_keys_witness :
    getTokenPrices (fun s => s = "0xgood") (fun s => s ++ "!") none = [] ∧
    ∃ tp, tp ∈ wTokenPricesResponse ∧ (fun s => decide (s = "0xgood")) tp.address = true ∧
      "0xgood!" = tp.address ++ "!" :=
  C10_getTokenPrices_keys (fun s => s = "0xgood") (fun s => s ++ "!")
    wTokenPricesResponse "0xgood!" (by decide)

/-- A `GqlBeetsFarmUser` record. -/
structure GqlBeetsFarmUser where
  id : String
  address : String
  amount : String
  beetsHarvested : String
  rewardDebt : String
  timestamp : String
  farmId : String
  deriving DecidableEq, Repr

/-- `getUserDataForFarm`, as a function of the parsed backend response
(`beetsGetUserDataForFarm`, which may be `null`). -/
def getUserDataForFarm (farmId : String)
    (beetsGetUserDataForFarm : Option GqlBeetsFarmUser) : GqlBeetsFarmUser :=
  match beetsGetUserDataForFarm with
  | some u => u
  | none =>
      { id := "", address := "", amount := "0", beetsHarvested := "0"
        rewardDebt := "0", timestamp := "", farmId := farmId }

/-- C9: `getUserDataForFarm` always yields a record: a `null` backend
response is replaced by the zeroed default that preserves the requested
`farmId`, and a non-null response is passed through unchanged. -/
theorem C9_getUserDataForFarm_total (farmId : String)
    (response : Option GqlBeetsFarmUser) :
    (response = none →
      getUserDataForFarm farmId response =
        { id := "", address := "", amount := "0", beetsHarvested := "0"
          rewardDebt := "0", timestamp := "", farmId := farmId }) ∧
    (∀ u, response = some u → getUserDataForFarm farmId response = u) := by
  constructor
  · intro h
    subst h
    rfl
  · intro u h
    subst h
    rfl

theorem C9_getUserDataForFarm_total_witness :
    getUserDataForFarm "farm-17" none =
      { id := "", address := "", amount := "0", beetsHarvested := "0"
        rewardDebt := "0", timestamp := "", farmId := "farm-17" } :=
  (C9_getUserDataForFarm_total "farm-17" none).1 rfl

/-- JS `Array.prototype.map` with a callback that can throw: evaluated left
to right, aborting at the first thrown error (`none`). -/
def optionMapList (f : α → Option β) : List α → Option (List β)
  | [] => some []
  | x :: xs =>
      match f x with
      | none => none
      | some y =>
          match optionMapList f xs with
          | none => none
          | some ys => some (y :: ys)

/-- One timestamped price of a historical series. -/
structure PriceEntry where
  timestamp : Nat
  price : ℚ
  deriving DecidableEq, Repr

/-- One entry of the `tokenPriceGetHistoricalPrices` response. -/
structure GqlHistoricalTokenPrice where
  address : String
  prices : List PriceEntry
  deriving DecidableEq, Repr

/-- The row built for one shared timestamp (the body of
`result[timestamp] = lowerCaseAddresses.map(...)`): each requested
lowercased address is looked up in the keyed response; an absent series
makes the lookup throw (`tokenPricesMap[address].prices` on `undefined`,
modelled as `none`), and an absent entry at the timestamp contributes
`entry?.price || 0`, that is 0. -/
def priceRow (tokenPricesMap : JsMap String GqlHistoricalTokenPrice)
    (lowerCaseAddresses : List String) (timestamp : Nat) : Option (List ℚ) :=
  optionMapList
    (fun address =>
      (jsGet tokenPricesMap address).map fun series =>
        ((series.prices.find? fun p => p.timestamp == timestamp).map
          (fun p => p.price)).getD 0)
    lowerCaseAddresses

/-- The `for (const timestamp of timestamps)` loop writing one row per
shared timestamp into the result object. -/
def histLoop (tokenPricesMap : JsMap String GqlHistoricalTokenPrice)
    (lowerCaseAddresses : List String) :
    List Nat → JsMap Nat (List ℚ) → Option (JsMap Nat (List ℚ))
  | [], result => some result
  | t :: rest, result =>
      match priceRow tokenPricesMap lowerCaseAddresses t with
      | none => none
      | some row =>
          histLoop tokenPricesMap lowerCaseAddresses rest (jsSet result t row)

/-- The shared timestamps:
`tokenPrices[0]?.prices.map(price => price.timestamp) || []`. -/
def firstTimestamps (tokenPrices : List GqlHistoricalTokenPrice) : List Nat :=
  ((tokenPrices.head?).map fun tp => tp.prices.map fun p => p.timestamp).getD []

/-- `getHistoricalTokenPrices`, as a function of the requested addresses and
the backend response list; `none` models the thrown `TypeError` when a
requested lowercased address has no series in the keyed response. -/
def getHistoricalTokenPrices (addresses : List String)
    (tokenPrices : List GqlHistoricalTokenPrice) : Option (JsMap Nat (List ℚ)) :=
  let lowerCaseAddresses := addresses.map jsToLower
  let tokenPricesMap := keyBy (fun tp => tp.address) tokenPrices
  histLoop tokenPricesMap lowerCaseAddresses (firstTimestamps tokenPrices) []

/-- The price the aligned result stores for one address at one shared
timestamp, given that the address has a series in the keyed response. -/
def rowValue (tokenPricesMap : JsMap String GqlHistoricalTokenPrice)
    (timestamp : Nat) (address : String) : ℚ :=
  ((((jsGet tokenPricesMap address).getD { address := "", prices := [] }).prices.find?
      fun p => p.timestamp == timestamp).map fun p => p.price).getD 0

theorem optionMapList_eq_none (f : α → Option β) (l : List α) (a : α)
    (ha : a ∈ l) (hf : f a = none) : optionMapList f l = none := by
  induction l with
  | nil => cases ha
  | cons x xs ih =>
      rcases List.mem_cons.mp ha with rfl | ha'
      · simp [optionMapList, hf]
      · cases hx : f x with
        | none => simp [optionMapList, hx]
        | some y => simp [optionMapList, hx, ih ha']

theorem optionMapList_eq_map (f : α → Option β) (g : α → β) (l : List α)
    (h : ∀ a ∈ l, f a = some (g a)) : optionMapList f l = some (l.map g) := by
  induction l with
  | nil => rfl
  | cons x xs ih =>
      have hx := h x (List.mem_cons_self x xs)
      have ih' := ih fun a ha => h a (List.mem_cons_of_mem x ha)
      simp [optionMapList, hx, ih']

theorem priceRow_eq_row (m : JsMap String GqlHistoricalTokenPrice)
    (lower : List String) (t : Nat)
    (hall : ∀ a ∈ lower, (jsGet m a).isSome) :
    priceRow m lower t = some (lower.map (rowValue m t)) := by
  apply optionMapList_eq_map
  intro a ha
  rcases Option.isSome_iff_exists.mp (hall a ha) with ⟨s, hs⟩
  simp [rowValue, hs]

theorem histLoop_spec (m : JsMap String GqlHistoricalTokenPrice)
    (lower : List String) (hall : ∀ a ∈ lower, (jsGet m a).isSome) :
    ∀ (T : List Nat) (acc : JsMap Nat (List ℚ)),
      ∃ r, histLoop m lower T acc = some r ∧
        ∀ x, jsGet r x =
          if x ∈ T then some (lower.map (rowValue m x)) else jsGet acc x := by
  intro T
  induction T with
  | nil =>
      intro acc
      exact ⟨acc, rfl, fun x => by simp⟩
  | cons t rest ih =>
      intro acc
      have hrow := priceRow_eq_row m lower t hall
      rcases ih (jsSet acc t (lower.map (rowValue m t))) with ⟨r, hr, hget⟩
      refine ⟨r, by simp [histLoop, hrow, hr], ?_⟩
      intro x
      have hx := hget x
      by_cases hxr : x ∈ rest
      · rw [if_pos hxr] at hx
        rw [hx, if_pos (List.mem_cons_of_mem t hxr)]
      · rw [if_neg hxr] at hx
        by_cases hxt : x = t
        · subst hxt
          rw [hx, jsGet_jsSet_self, if_pos (List.mem_cons_self x rest)]
        · have hne : x ∉ t :: rest := by
            intro hmem
            rcases List.mem_cons.mp hmem with h1 | h1
            · exact hxt h1
            · exact hxr h1
          rw [hx, jsGet_jsSet_ne acc t x (lower.map (rowValue m t)) hxt,
            if_neg hne]

/-- C8: whenever the first series of the response is the first requested
token's (lowercased address matches) and is non-empty, while some other
requested lowercased address has no series at all in the keyed response,
`getHistoricalTokenPrices` throws (indexes `.prices` on an absent map
entry) instead of defaulting that token's prices to zero. -/
theorem C8_missing_series_throws (addresses : List String)
    (tokenPrices : List GqlHistoricalTokenPrice)
    (firstSeries : GqlHistoricalTokenPrice) (firstAddress bad : String)
    (_hfirstAddr : addresses.head? = some firstAddress)
    (hfirst : tokenPrices.head? = some firstSeries)
    (_hmatch : firstSeries.address = jsToLower firstAddress)
    (hne : firstSeries.prices ≠ [])
    (hbadMem : bad ∈ addresses.map jsToLower)
    (hbadMiss : jsGet (keyBy (fun tp => tp.address) tokenPrices) bad = none) :
    getHistoricalTokenPrices addresses tokenPrices = none := by
  cases tokenPrices with
  | nil => cases hfirst
  | cons fs rest =>
      have hfs : fs = firstSeries := by
        simpa using hfirst
      subst hfs
      have hT : firstTimestamps (fs :: rest) = fs.prices.map fun p => p.timestamp := by
        simp [firstTimestamps]
      cases hp : fs.prices with
      | nil => exact absurd hp hne
      | cons e es =>
          have hrow : priceRow (keyBy (fun tp => tp.address) (fs :: rest))
              (addresses.map jsToLower) e.timestamp = none := by
            apply optionMapList_eq_none _ _ bad hbadMem
            simp [hbadMiss]
          show histLoop _ _ (firstTimestamps (fs :: rest)) [] = none
          rw [hT, hp]
          simp [histLoop, hrow]

/-- Request list used to witness C8: the second address has no series. -/
def c8Addresses : List String := ["0xA", "0xb"]

/-- Response used to witness C8: only the first requested token has a
series. -/
def c8Response : List GqlHistoricalTokenPrice :=
  [{ address := "0xa", prices := [{ timestamp := 1, price := 5 }] }]

theorem C8_missing_series_throws_witness :
    getHistoricalTokenPrices c8Addresses c8Response = none :=
  C8_missing_series_throws c8Addresses c8Response
    { address := "0xa", prices := [{ timestamp := 1, price := 5 }] }
    "0xA" "0xb" (by decide) (by decide) (by decide) (by decide) (by decide)
    (by decide)

/-- Requested addresses of the alignment counterexample. -/
def c4Addresses : List String := ["0xa", "0xb"]

/-- Response of the alignment counterexample: the response lists token B's
series first, so the shared timestamps are taken from B's series even though
A is the first requested token. -/
def c4Response : List GqlHistoricalTokenPrice :=
  [{ address := "0xb", prices := [{ timestamp := 1, price := 1 }] },
   { address := "0xa", prices := [{ timestamp := 1, price := 2 },
                                  { timestamp := 2, price := 3 }] }]

/-- The series belonging to the first requested token of the counterexample. -/
def c4FirstRequestedSeries : GqlHistoricalTokenPrice :=
  { address := "0xa", prices := [{ timestamp := 1, price := 2 },
                                 { timestamp := 2, price := 3 }] }

/-- C4 is false as stated: requesting [A, B] against a response that lists
B's series first yields a result keyed by B's timestamps; timestamp 2 lies
in the first requested token A's series, yet it is not a key of the result. -/
theorem C4_counterexample :
    getHistoricalTokenPrices c4Addresses c4Response = some [(1, [2, 1])] ∧
    jsGet (keyBy (fun tp => tp.address) c4Response) (jsToLower "0xa") =
      some c4FirstRequestedSeries ∧
    2 ∈ c4FirstRequestedSeries.prices.map (fun p => p.timestamp) ∧
    (2 : Nat) ∉ jsKeys ([(1, [2, 1])] : JsMap Nat (List ℚ)) := by
  refine ⟨by decide, by decide, by decide, by decide⟩

/-- C4 (amended): when every requested lowercased address has a series in
the keyed response, the aligned result exists, its timestamp keys are
exactly the timestamps of the first series of the response, every such key
maps to the row of per-address aligned prices, and a requested token whose
series has no entry at one of those timestamps gets price 0 at its position
of the row. -/
theorem C4_aligned_result (addresses : List String)
    (tokenPrices : List GqlHistoricalTokenPrice)
    (hall : ∀ a ∈ addresses.map jsToLower,
      (jsGet (keyBy (fun tp => tp.address) tokenPrices) a).isSome) :
    ∃ r, getHistoricalTokenPrices addresses tokenPrices = some r ∧
      (∀ ts : Nat, ts ∈ jsKeys r ↔ ts ∈ firstTimestamps tokenPrices) ∧
      (∀ ts ∈ firstTimestamps tokenPrices,
        jsGet r ts = some ((addresses.map jsToLower).map
          (rowValue (keyBy (fun tp => tp.address) tokenPrices) ts))) ∧
      (∀ ts ∈ firstTimestamps tokenPrices, ∀ (j : Nat) (a : String)
        (series : GqlHistoricalTokenPrice),
        (addresses.map jsToLower).get? j = some a →
        jsGet (keyBy (fun tp => tp.address) tokenPrices) a = some series →
        series.prices.find? (fun p => p.timestamp == ts) = none →
        ∃ row, jsGet r ts = some row ∧ row.get? j = some 0) := by
  rcases histLoop_spec (keyBy (fun tp => tp.address) tokenPrices)
      (addresses.map jsToLower) hall (firstTimestamps tokenPrices) []
    with ⟨r, hr, hget⟩
  refine ⟨r, hr, ?_, ?_, ?_⟩
  · intro ts
    rw [mem_jsKeys_iff_jsGet_isSome, hget ts]
    by_cases h : ts ∈ firstTimestamps tokenPrices
    · simp [h]
    · simp [h, jsGet]
  · intro ts hts
    rw [hget ts, if_pos hts]
  · intro ts hts j a series hj hseries hfind
    refine ⟨(addresses.map jsToLower).map
      (rowValue (keyBy (fun tp => tp.address) tokenPrices) ts), ?_, ?_⟩
    · rw [hget ts, if_pos hts]
    · rw [List.get?_map, hj]
      simp [rowValue, hseries, hfind]

/-- Requested addresses of the alignment witness. -/
def c4WAddresses : List String := ["0xA", "0xb"]

/-- Response of the alignment witness: both requested tokens have a series;
token B has no entry at the shared timestamp 2. -/
def c4WResponse : List GqlHistoricalTokenPrice :=
  [{ address := "0xa", prices := [{ timestamp := 1, price := 5 },
                                  { timestamp := 2, price := 7 }] },
   { address := "0xb", prices := [{ timestamp := 1, price := 3 }] }]

theorem C4_aligned_result_witness :
    ∃ r, getHistoricalTokenPrices c4WAddresses c4WResponse = some r ∧
      (∀ ts : Nat, ts ∈ jsKeys r ↔ ts ∈ firstTimestamps c4WResponse) ∧
      (∀ ts ∈ firstTimestamps c4WResponse,
        jsGet r ts = some ((c4WAddresses.map jsToLower).map
          (rowValue (keyBy (fun tp => tp.address) c4WResponse) ts))) ∧
      (∀ ts ∈ firstTimestamps c4WResponse, ∀ (j : Nat) (a : String)
        (series : GqlHistoricalTokenPrice),
        (c4WAddresses.map jsToLower).get? j = some a →
        jsGet (keyBy (fun tp => tp.address) c4WResponse) a = some series →
        series.prices.find? (fun p => p.timestamp == ts) = none →
        ∃ row, jsGet r ts = some row ∧ row.get? j = some 0) :=
  C4_aligned_result c4WAddresses c4WResponse (by decide)

/-! ### `src/composables/queries/useUserPoolsQuery.ts` -/

/-- A token record of a pool's `tokens` field; besides the address one
representative metadata field (`balance`) is kept for the object spread. -/
structure PoolToken where
  address : String
  balance : String
  deriving DecidableEq, Repr

/-- The subgraph `Pool` record, restricted to the fields this composable
reads or writes.  Linear-pool fields (`wrappedIndex`, `mainIndex`,
`tokens`) sit on the same record, as in the source's `LinearPool` cast.
`wrappedTokens` is a JS array written by index assignment (`indexOf` can
yield -1, which JS stores as an ordinary object property), modelled as an
`Int`-keyed object; `none` models the field being absent before the first
write.  `totalLiquidity` and `totalShares` arrive as decimal strings and
are modelled as exact rationals. -/
structure Pool where
  id : String
  address : String
  poolType : String
  tokensList : List String
  tokens : List PoolToken
  wrappedIndex : Nat
  mainIndex : Nat
  wrappedTokens : Option (JsMap Int String)
  linearPoolTokensMap : JsMap String PoolToken
  linearPoolToMainTokenMap : JsMap String (Option String)
  totalLiquidity : ℚ
  totalShares : ℚ
  deriving DecidableEq, Repr

/-- `removePreMintedBPT`: drop every token-list entry equal to the
lowercased derived pool address.  `addressFor` is the subgraph service's
address derivation (outside this repository), taken as a parameter. -/
def removePreMintedBPT (addressFor : String → String) (pool : Pool) : Pool :=
  let poolAddress := addressFor pool.id
  { pool with
    tokensList := pool.tokensList.filter fun address =>
      address ≠ jsToLower poolAddress }

/-- A pool whose token list carries a mixed-case spelling of its own derived
address. -/
def c2Pool : Pool :=
  { id := "pool-1", address := "0xAb", poolType := "StablePhantom"
    tokensList := ["0xAb", "0xcd"], tokens := [], wrappedIndex := 0
    mainIndex := 0, wrappedTokens := none, linearPoolTokensMap := []
    linearPoolToMainTokenMap := [], totalLiquidity := 0, totalShares := 0 }

/-- The derived-address function of the C2 counterexample. -/
def c2AddressFor : String → String := fun _ => "0xAb"

/-- C2 is false as stated: the filter compares the raw entry against the
lowercased derived address, so a mixed-case entry that equals the derived
address case-insensitively survives the decoration. -/
theorem C2_counterexample :
    "0xAb" ∈ (removePreMintedBPT c2AddressFor c2Pool).tokensList ∧
    jsToLower "0xAb" = jsToLower (c2AddressFor c2Pool.id) := by
  refine ⟨by decide, by decide⟩

/-- C2 (amended): provided every entry of the pool's token list is already
lowercase — as subgraph token lists are — the decorated token list contains
no entry case-insensitively equal to the pool's own derived address. -/
theorem C2_no_preminted_bpt (addressFor : String → String) (pool : Pool)
    (hlow : ∀ a ∈ pool.tokensList, jsToLower a = a) :
    ∀ a ∈ (removePreMintedBPT addressFor pool).tokensList,
      jsToLower a ≠ jsToLower (addressFor pool.id) := by
  intro a ha
  have hmem := List.mem_filter.mp ha
  have hin : a ∈ pool.tokensList := hmem.1
  have hne : a ≠ jsToLower (addressFor pool.id) := by
    have := hmem.2
    simpa using this
  rw [hlow a hin]
  exact hne

/-- A lowercase-token-list pool for the C2 witness. -/
def c2WPool : Pool :=
  { id := "pool-1", address := "0xab", poolType := "StablePhantom"
    tokensList := ["0xab", "0xcd"], tokens := [], wrappedIndex := 0
    mainIndex := 0, wrappedTokens := none, linearPoolTokensMap := []
    linearPoolToMainTokenMap := [], totalLiquidity := 0, totalShares := 0 }

theorem C2_no_preminted_bpt_witness :
    jsToLower "0xcd" ≠ jsToLower (c2AddressFor c2WPool.id) :=
  C2_no_preminted_bpt c2AddressFor c2WPool (by decide) "0xcd" (by decide)

/-- The token-address aggregation of `queryFn`: for every pool, its token
list, its derived liquidity-pool tokens (`lpTokensFor`, a helper outside
this file, taken as a parameter) and its own derived pool address, flattened
with lodash `flatten`. -/
def queryTokens (addressFor : String → String)
    (lpTokensFor : Pool → List String) (pools : List Pool) : List String :=
  (pools.map fun pool =>
    pool.tokensList ++ lpTokensFor pool ++ [addressFor pool.id]).join

/-- First pool of the duplication counterexample. -/
def c7PoolA : Pool :=
  { id := "p1", address := "0xp1", poolType := "Weighted"
    tokensList := ["0xdup"], tokens := [], wrappedIndex := 0, mainIndex := 0
    wrappedTokens := none, linearPoolTokensMap := []
    linearPoolToMainTokenMap := [], totalLiquidity := 0, totalShares := 0 }

/-- Second pool of the duplication counterexample, sharing a token address
with the first. -/
def c7PoolB : Pool :=
  { id := "p2", address := "0xp2", poolType := "Weighted"
    tokensList := ["0xdup"], tokens := [], wrappedIndex := 0, mainIndex := 0
    wrappedTokens := none, linearPoolTokensMap := []
    linearPoolToMainTokenMap := [], totalLiquidity := 0, totalShares := 0 }

/-- C7 is false as stated: the aggregation is a plain flatten with no
deduplication, so an address shared by two pools appears twice. -/
theorem C7_counterexample :
    queryTokens (fun id => id) (fun _ => []) [c7PoolA, c7PoolB] =
      ["0xdup", "p1", "0xdup", "p2"] ∧
    ¬ (queryTokens (fun id => id) (fun _ => []) [c7PoolA, c7PoolB]).Nodup := by
  refine ⟨by decide, by decide⟩

/-- C7 (amended): the `tokens` field contains exactly the union of every
pool's constituent token addresses, derived liquidity-pool token addresses
and own derived pool address — as a set; an address shared between pools
appears once per occurrence, not once overall. -/
theorem C7_tokens_union (addressFor : String → String)
    (lpTokensFor : Pool → List String) (pools : List Pool) (a : String) :
    a ∈ queryTokens addressFor lpTokensFor pools ↔
      ∃ pool ∈ pools,
        a ∈ pool.tokensList ∨ a ∈ lpTokensFor pool ∨ a = addressFor pool.id := by
  constructor
  · intro ha
    rcases List.mem_join.mp ha with ⟨chunk, hchunk, hmem⟩
    rcases List.mem_map.mp hchunk with ⟨pool, hpool, rfl⟩
    refine ⟨pool, hpool, ?_⟩
    rcases List.mem_append.mp hmem with h | h
    · rcases List.mem_append.mp h with h' | h'
      · exact Or.inl h'
      · exact Or.inr (Or.inl h')
    · exact Or.inr (Or.inr (by simpa using h))
  · rintro ⟨pool, hpool, hcase⟩
    apply List.mem_join.mpr
    refine ⟨pool.tokensList ++ lpTokensFor pool ++ [addressFor pool.id],
      List.mem_map.mpr ⟨pool, hpool, rfl⟩, ?_⟩
    rcases hcase with h | h | h
    · exact List.mem_append.mpr (Or.inl (List.mem_append.mpr (Or.inl h)))
    · exact List.mem_append.mpr (Or.inl (List.mem_append.mpr (Or.inr h)))
    · exact List.mem_append.mpr (Or.inr (by simp [h]))

theorem C7_tokens_union_witness :
    "0xdup" ∈ queryTokens (fun id => id) (fun _ => []) [c7PoolA, c7PoolB] :=
  (C7_tokens_union (fun id => id) (fun _ => []) [c7PoolA, c7PoolB] "0xdup").mpr
    ⟨c7PoolA, by decide, Or.inl (by decide)⟩

theorem jsGet_foldl_jsSet [DecidableEq κ] (f : α → κ) (k : κ) :
    ∀ (l : List α) (m₀ : JsMap κ α), (l.map f).Nodup →
      jsGet (l.foldl (fun m x => jsSet m (f x) x) m₀) k =
        match l.find? (fun x => f x == k) with
        | some x => some x
        | none => jsGet m₀ k := by
  intro l
  induction l with
  | nil =>
      intro m₀ _
      rfl
  | cons x xs ih =>
      intro m₀ hnd
      rw [List.map_cons, List.nodup_cons] at hnd
      by_cases hfx : f x = k
      · subst hfx
        have hfind : (x :: xs).find? (fun y => f y == f x) = some x :=
          List.find?_cons_of_pos _ (by simp)
        have hnone : xs.find? (fun y => f y == f x) = none := by
          apply List.find?_eq_none.mpr
          intro y hy
          simp only [beq_iff_eq]
          intro hyk
          apply hnd.1
          rw [← hyk]
          exact List.mem_map_of_mem f hy
        rw [List.foldl_cons, ih (jsSet m₀ (f x) x) hnd.2]
        simp [hnone, hfind, jsGet_jsSet_self]
      · have hfind : (x :: xs).find? (fun y => f y == k) =
            xs.find? (fun y => f y == k) := by
          simp [List.find?_cons_of_neg, hfx]
        rw [List.foldl_cons, ih (jsSet m₀ (f x) x) hnd.2, hfind]
        cases hf : xs.find? fun y => f y == k with
        | some y => rfl
        | none =>
            simpa using jsGet_jsSet_ne m₀ (f x) k x fun h => hfx h.symm

theorem jsGet_keyBy [DecidableEq κ] (f : α → κ) (l : List α) (k : κ)
    (hnd : (l.map f).Nodup) :
    jsGet (keyBy f l) k = l.find? fun x => f x == k := by
  have h := jsGet_foldl_jsSet f k l [] hnd
  cases hf : l.find? fun x => f x == k with
  | some x =>
      rw [hf] at h
      exact h
  | none =>
      rw [hf] at h
      exact h

/-- A `poolId` reference of a pool share record. -/
structure PoolShareId where
  id : String
  deriving DecidableEq, Repr

/-- A subgraph pool share record: the pool join key and the user's balance
(a decimal string in the source, modelled as an exact rational). -/
structure PoolShare where
  poolId : PoolShareId
  balance : ℚ
  deriving DecidableEq, Repr

/-- `keyBy(poolShares, poolShare => poolShare.poolId.id)`. -/
def poolSharesMapOf (poolShares : List PoolShare) : JsMap String PoolShare :=
  keyBy (fun poolShare => poolShare.poolId.id) poolShares

/-- One pool's user share value, the `shares` field of `poolsWithShares`:
`bnum(pool.totalLiquidity).div(pool.totalShares).times(poolSharesMap[pool.id]?.balance ?? 0)`.
BigNumber decimal arithmetic is modelled as exact rational arithmetic
(rational division by a zero `totalShares` yields 0 where BigNumber yields
Infinity). -/
def poolShareValue (poolSharesMap : JsMap String PoolShare) (pool : Pool) : ℚ :=
  pool.totalLiquidity / pool.totalShares *
    (((jsGet poolSharesMap pool.id).map fun sh => sh.balance).getD 0)

/-- `poolsWithShares`: each decorated user pool paired with its share value. -/
def poolsWithShares (poolShares : List PoolShare)
    (decoratedPools : List Pool) : List (Pool × ℚ) :=
  decoratedPools.map fun pool =>
    (pool, poolShareValue (poolSharesMapOf poolShares) pool)

/-- `totalInvestedAmount`: the reduce of the share values with `plus`,
starting from `bnum(0)`. -/
def totalInvestedAmount (poolShares : List PoolShare)
    (decoratedPools : List Pool) : ℚ :=
  ((poolsWithShares poolShares decoratedPools).map fun pws => pws.2).foldl
    (fun totalShares shares => totalShares + shares) 0

/-- The spec-side balance: the user's share balance for a pool, zero when no
share record matches (stated independently of the code's `keyBy` map, for
the refinement comparison). -/
def specUserShareBalance (poolShares : List PoolShare) (poolId : String) : ℚ :=
  match poolShares.find? fun sh => sh.poolId.id == poolId with
  | some sh => sh.balance
  | none => 0

/-- The spec-side total: the sum over the user's pools of
`(totalLiquidity / totalShares) * userSharesBalance`. -/
def specTotalInvestedAmount (poolShares : List PoolShare)
    (userPools : List Pool) : ℚ :=
  (userPools.map fun pool =>
    pool.totalLiquidity / pool.totalShares *
      specUserShareBalance poolShares pool.id).sum

theorem poolShareValue_eq_spec (poolShares : List PoolShare) (pool : Pool)
    (hnd : (poolShares.map fun sh => sh.poolId.id).Nodup) :
    poolShareValue (poolSharesMapOf poolShares) pool =
      pool.totalLiquidity / pool.totalShares *
        specUserShareBalance poolShares pool.id := by
  have h2 : jsGet (poolSharesMapOf poolShares) pool.id =
      poolShares.find? fun sh => sh.poolId.id == pool.id :=
    jsGet_keyBy _ poolShares pool.id hnd
  unfold poolShareValue specUserShareBalance
  rw [h2]
  cases hf : poolShares.find? fun sh => sh.poolId.id == pool.id with
  | some sh => simp
  | none => simp

/-- C1: `totalInvestedAmount` equals the sum over the user's pools of
`(totalLiquidity / totalShares) * userSharesBalance`, with zero balance for
a pool that has no matching share record, and the sum is non-negative
whenever all liquidity, share-supply and balance inputs are non-negative.
The share records are assumed keyed by distinct pool ids, as the subgraph
returns at most one share per (user, pool). -/
theorem C1_totalInvestedAmount_correct (poolShares : List PoolShare)
    (userPools : List Pool)
    (hnd : (poolShares.map fun sh => sh.poolId.id).Nodup)
    (hpools : ∀ pool ∈ userPools,
      0 ≤ pool.totalLiquidity ∧ 0 ≤ pool.totalShares)
    (hbal : ∀ sh ∈ poolShares, 0 ≤ sh.balance) :
    totalInvestedAmount poolShares userPools =
      specTotalInvestedAmount poolShares userPools ∧
    0 ≤ totalInvestedAmount poolShares userPools := by
  have hmap : ((poolsWithShares poolShares userPools).map fun pws => pws.2) =
      userPools.map fun pool =>
        pool.totalLiquidity / pool.totalShares *
          specUserShareBalance poolShares pool.id := by
    unfold poolsWithShares
    rw [List.map_map]
    apply List.map_congr_left
    intro pool hpool
    exact poolShareValue_eq_spec poolShares pool hnd
  have heq : totalInvestedAmount poolShares userPools =
      specTotalInvestedAmount poolShares userPools := by
    unfold totalInvestedAmount specTotalInvestedAmount
    rw [hmap, ← List.sum_eq_foldl]
  refine ⟨heq, ?_⟩
  rw [heq]
  unfold specTotalInvestedAmount
  apply List.sum_nonneg
  intro x hx
  rcases List.mem_map.mp hx with ⟨pool, hpool, rfl⟩
  have hL := (hpools pool hpool).1
  have hS := (hpools pool hpool).2
  apply mul_nonneg (div_nonneg hL hS)
  unfold specUserShareBalance
  cases hf : poolShares.find? fun sh => sh.poolId.id == pool.id with
  | some sh => exact hbal sh (List.mem_of_find?_eq_some hf)
  | none => exact le_refl 0

/-- Share records of the C1 witness: the user holds a share of pool p1
only. -/
def c1Shares : List PoolShare := [{ poolId := { id := "p1" }, balance := 10 }]

/-- First user pool of the C1 witness. -/
def c1PoolA : Pool :=
  { id := "p1", address := "0xp1", poolType := "Weighted"
    tokensList := ["0xt1"], tokens := [], wrappedIndex := 0, mainIndex := 0
    wrappedTokens := none, linearPoolTokensMap := []
    linearPoolToMainTokenMap := [], totalLiquidity := 100, totalShares := 50 }

/-- Second user pool of the C1 witness; no matching share record. -/
def c1PoolB : Pool :=
  { id := "p2", address := "0xp2", poolType := "Weighted"
    tokensList := ["0xt2"], tokens := [], wrappedIndex := 0, mainIndex := 0
    wrappedTokens := none, linearPoolTokensMap := []
    linearPoolToMainTokenMap := [], totalLiquidity := 30, totalShares := 10 }

theorem C1_totalInvestedAmount_correct_witness :
    totalInvestedAmount c1Shares [c1PoolA, c1PoolB] =
      specTotalInvestedAmount c1Shares [c1PoolA, c1PoolB] ∧
    0 ≤ totalInvestedAmount c1Shares [c1PoolA, c1PoolB] :=
  C1_totalInvestedAmount_correct c1Shares [c1PoolA, c1PoolB]
    (by decide) (by decide) (by decide)

/-- JS `Array.prototype.indexOf`: the first index of the value, or -1. -/
def jsIndexOf (l : List String) (a : String) : Int :=
  match l with
  | [] => -1
  | x :: xs =>
      if x = a then 0
      else
        let r := jsIndexOf xs a
        if r = -1 then -1 else r + 1

theorem jsIndexOf_spec (a : String) :
    ∀ l : List String, jsIndexOf l a = -1 ∨
      ∃ m : Nat, jsIndexOf l a = (m : Int) ∧ l.get? m = some a := by
  intro l
  induction l with
  | nil => exact Or.inl rfl
  | cons x xs ih =>
      by_cases hx : x = a
      · subst hx
        refine Or.inr ⟨0, ?_, rfl⟩
        simp [jsIndexOf]
      · rcases ih with h | ⟨m, hm, hget⟩
        · exact Or.inl (by simp [jsIndexOf, hx, h])
        · refine Or.inr ⟨m + 1, ?_, ?_⟩
          · have hcons : jsIndexOf (x :: xs) a =
                if x = a then 0
                else if jsIndexOf xs a = -1 then -1 else jsIndexOf xs a + 1 := rfl
            rw [hcons, if_neg hx, hm]
            have hne : ¬ ((m : Int) = -1) := by omega
            rw [if_neg hne]
            omega
          · simpa using hget

theorem jsIndexOf_nat_get (l : List String) (a : String) (n : Nat)
    (h : jsIndexOf l a = (n : Int)) : l.get? n = some a := by
  rcases jsIndexOf_spec a l with h1 | ⟨m, hm, hget⟩
  · rw [h] at h1
    exact absurd h1 (by omega)
  · rw [hm] at h
    have hmn : m = n := by exact_mod_cast h
    rw [← hmn]
    exact hget

/-- State threaded through the `linearPools.forEach` loop of
`getLinearPoolAttrs`: the parent's `wrappedTokens` array (absent until first
initialized) and the accumulated `linearPoolTokensMap`. -/
structure LinearAttrsState where
  wrappedTokens : Option (JsMap Int String)
  linearPoolTokensMap : JsMap String PoolToken
  deriving DecidableEq, Repr

/-- One iteration of the `forEach`: initialize `wrappedTokens` to `[]` if it
is absent, write the checksum-formatted wrapped-token address at the parent
token-list index of the linear pool's lowercased address (JS stores an
`indexOf` miss under key -1), and merge the linear pool's non-self tokens,
checksum-keyed, into the token map.  Reading `tokensList[wrappedIndex]` out
of bounds yields `undefined`, which `getAddress` throws on: modelled as
`none`. -/
def linearPoolStep (getAddr : String → String) (pool : Pool)
    (st : LinearAttrsState) (linearPool : Pool) : Option LinearAttrsState :=
  let w := st.wrappedTokens.getD []
  let index := jsIndexOf pool.tokensList (jsToLower linearPool.address)
  match linearPool.tokensList.get? linearPool.wrappedIndex with
  | none => none
  | some wrapped =>
      some
        { wrappedTokens := some (jsSet w index (getAddr wrapped))
          linearPoolTokensMap :=
            (linearPool.tokens.filter fun token =>
              token.address ≠ linearPool.address).foldl
              (fun m token =>
                jsSet m (getAddr token.address)
                  { token with address := getAddr token.address })
              st.linearPoolTokensMap }

/-- The `forEach` loop over all fetched Linear pools. -/
def linearPoolsFold (getAddr : String → String) (pool : Pool) :
    List Pool → LinearAttrsState → Option LinearAttrsState
  | [], st => some st
  | lp :: rest, st =>
      match linearPoolStep getAddr pool st lp with
      | none => none
      | some st' => linearPoolsFold getAddr pool rest st'

/-- `getLinearPoolAttrs`, as a function of the fetched pool list: filter the
Linear pools, run the `forEach`, then attach the three derived attributes
(`linearPoolToMainTokenMap` is the final `reduce`, whose stored value is
`undefined` when `mainIndex` is out of bounds). -/
def getLinearPoolAttrs (getAddr : String → String) (pools : List Pool)
    (pool : Pool) : Option Pool :=
  let linearPools := pools.filter fun p => p.poolType == "Linear"
  match linearPoolsFold getAddr pool linearPools
      { wrappedTokens := pool.wrappedTokens, linearPoolTokensMap := [] } with
  | none => none
  | some st =>
      some
        { pool with
          wrappedTokens := st.wrappedTokens
          linearPoolTokensMap := st.linearPoolTokensMap
          linearPoolToMainTokenMap :=
            linearPools.foldl
              (fun map lp =>
                jsSet map lp.address (lp.tokensList.get? lp.mainIndex)) [] }

theorem getLinearPoolAttrs_eq (getAddr : String → String) (pools : List Pool)
    (pool : Pool) :
    getLinearPoolAttrs getAddr pools pool =
      match linearPoolsFold getAddr pool
          (pools.filter fun p => p.poolType == "Linear")
          { wrappedTokens := pool.wrappedTokens, linearPoolTokensMap := [] } with
      | none => none
      | some st =>
          some
            { pool with
              wrappedTokens := st.wrappedTokens
              linearPoolTokensMap := st.linearPoolTokensMap
              linearPoolToMainTokenMap :=
                (pools.filter fun p => p.poolType == "Linear").foldl
                  (fun map lp =>
                    jsSet map lp.address (lp.tokensList.get? lp.mainIndex))
                  [] } := rfl

theorem linearPoolsFold_append (getAddr : String → String) (pool : Pool)
    (l₁ l₂ : List Pool) :
    ∀ st : LinearAttrsState,
      linearPoolsFold getAddr pool (l₁ ++ l₂) st =
        match linearPoolsFold getAddr pool l₁ st with
        | none => none
        | some st₁ => linearPoolsFold getAddr pool l₂ st₁ := by
  induction l₁ with
  | nil => intro st; rfl
  | cons x xs ih =>
      intro st
      cases hs : linearPoolStep getAddr pool st x with
      | none => simp [linearPoolsFold, hs]
      | some st' => simp [linearPoolsFold, hs, ih st']

theorem linearPoolsFold_preserves (getAddr : String → String) (pool : Pool)
    (idx : Int) (v : String) :
    ∀ (L : List Pool) (st st' : LinearAttrsState),
      linearPoolsFold getAddr pool L st = some st' →
      (∀ lp ∈ L, jsIndexOf pool.tokensList (jsToLower lp.address) ≠ idx) →
      (∃ w, st.wrappedTokens = some w ∧ jsGet w idx = some v) →
      ∃ w, st'.wrappedTokens = some w ∧ jsGet w idx = some v := by
  intro L
  induction L with
  | nil =>
      intro st st' hrun hno hw
      cases hrun
      exact hw
  | cons lp rest ih =>
      intro st st' hrun hno hw
      rcases hw with ⟨w, hwt, hwg⟩
      cases hs : linearPoolStep getAddr pool st lp with
      | none => simp [linearPoolsFold, hs] at hrun
      | some st₁ =>
          have hrun' : linearPoolsFold getAddr pool rest st₁ = some st' := by
            simpa [linearPoolsFold, hs] using hrun
          have hner : jsIndexOf pool.tokensList (jsToLower lp.address) ≠ idx :=
            hno lp (List.mem_cons_self lp rest)
          have hst₁ : ∃ w₁, st₁.wrappedTokens = some w₁ ∧
              jsGet w₁ idx = some v := by
            unfold linearPoolStep at hs
            cases hwr : lp.tokensList.get? lp.wrappedIndex with
            | none =>
                rw [hwr] at hs
                exact Option.noConfusion hs
            | some wrapped =>
                rw [hwr] at hs
                cases hs
                refine ⟨jsSet (st.wrappedTokens.getD [])
                  (jsIndexOf pool.tokensList (jsToLower lp.address))
                  (getAddr wrapped), rfl, ?_⟩
                rw [jsGet_jsSet_ne _ _ _ _ fun h => hner h.symm]
                rw [hwt]
                exact hwg
          exact ih st₁ st' hrun' (fun q hq => hno q (List.mem_cons_of_mem lp hq)) hst₁

/-- C3: after `getLinearPoolAttrs`, for each fetched Linear pool whose
lowercased address sits at position `idx` of the parent's token list, the
parent's `wrappedTokens[idx]` holds the checksum-formatted address of that
linear pool's token at its `wrappedIndex`.  The fetched Linear pools are
assumed to carry pairwise distinct lowercased addresses, as on-chain pool
addresses are unique. -/
theorem C3_wrappedTokens_checksum (getAddr : String → String)
    (pools : List Pool) (pool pool' lp : Pool) (idx : Nat) (wrapped : String)
    (hrun : getLinearPoolAttrs getAddr pools pool = some pool')
    (hlp : lp ∈ pools.filter fun p => p.poolType == "Linear")
    (hidx : jsIndexOf pool.tokensList (jsToLower lp.address) = (idx : Int))
    (hwrapped : lp.tokensList.get? lp.wrappedIndex = some wrapped)
    (hdistinct : ((pools.filter fun p => p.poolType == "Linear").map
        fun p => jsToLower p.address).Nodup) :
    ∃ w, pool'.wrappedTokens = some w ∧
      jsGet w (idx : Int) = some (getAddr wrapped) := by
  rw [getLinearPoolAttrs_eq] at hrun
  cases hf : linearPoolsFold getAddr pool
      (pools.filter fun p => p.poolType == "Linear")
      { wrappedTokens := pool.wrappedTokens, linearPoolTokensMap := [] } with
  | none =>
      rw [hf] at hrun
      exact Option.noConfusion hrun
  | some st =>
      rw [hf] at hrun
      have hpool' : pool'.wrappedTokens = st.wrappedTokens := by
        cases hrun
        rfl
      rcases List.append_of_mem hlp with ⟨L₁, L₂, hL⟩
      rw [hL] at hf hdistinct
      rw [linearPoolsFold_append getAddr pool L₁ (lp :: L₂)
        { wrappedTokens := pool.wrappedTokens, linearPoolTokensMap := [] }] at hf
      cases h1 : linearPoolsFold getAddr pool L₁
          { wrappedTokens := pool.wrappedTokens, linearPoolTokensMap := [] } with
      | none =>
          rw [h1] at hf
          exact Option.noConfusion hf
      | some st₁ =>
          rw [h1] at hf
          cases hs : linearPoolStep getAddr pool st₁ lp with
          | none => simp [linearPoolsFold, hs] at hf
          | some st₂ =>
              have hf₂ : linearPoolsFold getAddr pool L₂ st₂ = some st := by
                simpa [linearPoolsFold, hs] using hf
              have hst₂ : st₂.wrappedTokens =
                  some (jsSet (st₁.wrappedTokens.getD []) ((idx : Nat) : Int)
                    (getAddr wrapped)) := by
                unfold linearPoolStep at hs
                rw [hwrapped] at hs
                cases hs
                rw [hidx]
              have hno : ∀ q ∈ L₂,
                  jsIndexOf pool.tokensList (jsToLower q.address) ≠
                    ((idx : Nat) : Int) := by
                intro q hq hcontra
                have hgq := jsIndexOf_nat_get pool.tokensList
                  (jsToLower q.address) idx hcontra
                have hgl := jsIndexOf_nat_get pool.tokensList
                  (jsToLower lp.address) idx hidx
                rw [hgq] at hgl
                have heq : jsToLower q.address = jsToLower lp.address :=
                  Option.some.inj hgl
                rw [List.map_append, List.map_cons] at hdistinct
                have h2 := hdistinct.of_append_right
                have h3 := (List.nodup_cons.mp h2).1
                apply h3
                rw [← heq]
                exact List.mem_map_of_mem (fun p => jsToLower p.address) hq
              have hpres := linearPoolsFold_preserves getAddr pool
                ((idx : Nat) : Int) (getAddr wrapped) L₂ st₂ st hf₂ hno
                ⟨jsSet (st₁.wrappedTokens.getD []) ((idx : Nat) : Int)
                  (getAddr wrapped), hst₂, jsGet_jsSet_self _ _ _⟩
              rcases hpres with ⟨w, hw1, hw2⟩
              exact ⟨w, hpool'.trans hw1, hw2⟩

/-- The fetched Linear pool of the C3 witness. -/
def c3Linear : Pool :=
  { id := "lp-1", address := "0xL", poolType := "Linear"
    tokensList := ["0xmain", "0xwrapped"], tokens := [], wrappedIndex := 1
    mainIndex := 0, wrappedTokens := none, linearPoolTokensMap := []
    linearPoolToMainTokenMap := [], totalLiquidity := 0, totalShares := 0 }

/-- The parent pool of the C3 witness; the linear pool's lowercased address
sits at position 1 of its token list. -/
def c3Parent : Pool :=
  { id := "parent", address := "0xP", poolType := "StablePhantom"
    tokensList := ["0xother", "0xl"], tokens := [], wrappedIndex := 0
    mainIndex := 0, wrappedTokens := none, linearPoolTokensMap := []
    linearPoolToMainTokenMap := [], totalLiquidity := 0, totalShares := 0 }

/-- The decorated parent pool of the C3 witness. -/
def c3Result : Pool :=
  { c3Parent with
    wrappedTokens := some [(1, "0xwrapped")]
    linearPoolTokensMap := []
    linearPoolToMainTokenMap := [("0xL", some "0xmain")] }

theorem C3_wrappedTokens_checksum_witness :
    ∃ w, c3Result.wrappedTokens = some w ∧
      jsGet w (((1 : Nat) : Int)) = some ((fun s => s) "0xwrapped") :=
  C3_wrappedTokens_checksum (fun s => s) [c3Linear] c3Parent c3Result c3Linear
    1 "0xwrapped" (by decide) (by decide) (by decide) (by decide) (by decide)
